import Mathlib

/-!
Shallow embedding of the cache-consistency core of the redisPostgres service
(`backend/main.go`): a `CacheService` mediating between a relational store
(the `bitcoins` table, source of truth) and a key-value cache (Redis).

Modelling conventions, all read off the Go source:
* The relational table (schema: `symbol VARCHAR PRIMARY KEY, price INTEGER,
  created_at, updated_at`) is a list of `DBRow`; timestamps are `Nat` and the
  current clock is passed as an explicit `now` argument where the SQL uses
  `CURRENT_TIMESTAMP`.
* The Go struct `Bitcoin` carries an optional `Rank *int` that is nil except
  in ranked listings; a 4-column `Scan` into a fresh struct is `rowToBitcoin`.
* The cache is an association list from key strings to `CacheVal`.  A
  `CacheVal` is either the serialization of one record, the serialization of
  a ranked listing, or unparseable bytes (`corrupt`); `json.Marshal` of the
  `Bitcoin` struct cannot fail in Go, so marshalling is total, while
  `json.Unmarshal` into the wrong shape fails.
* Every external call whose error the Go code inspects (or discards) gets an
  explicit `Bool` argument telling whether that call succeeded: `dbOk` for
  the store query/exec, `cacheSetOk` for a Redis `Set`, `itemDelOk` /
  `rankDelOk` for a Redis `Del` (whose error the code discards - a failed
  `Del` leaves the key in place).  A failed Redis `Get` is indistinguishable
  from a miss in the code (`err == nil` guards the hit path), so it needs no
  flag.  Operations return `Except Unit` mirroring Go's `error` return.
-/

deriving instance DecidableEq for Except

/-- The record entity (`type Bitcoin struct` in the source).  `rank` is the
`Rank *int` field: absent on single-record fetches, set in ranked listings. -/
structure Bitcoin where
  symbol : String
  price : Int
  rank : Option Nat
  createdAt : Nat
  updatedAt : Nat
deriving DecidableEq

/-- A row of the `bitcoins` table: `symbol, price, created_at, updated_at`
(the table has no rank column). -/
structure DBRow where
  symbol : String
  price : Int
  createdAt : Nat
  updatedAt : Nat
deriving DecidableEq

/-- Scanning the four columns of a row into a fresh `Bitcoin` struct leaves
`Rank` at its zero value nil. -/
def rowToBitcoin (r : DBRow) : Bitcoin :=
  { symbol := r.symbol, price := r.price, rank := none
    createdAt := r.createdAt, updatedAt := r.updatedAt }

/-- The row data underlying a `Bitcoin` value (forgetting `rank`). -/
def bitcoinRow (b : Bitcoin) : DBRow :=
  { symbol := b.symbol, price := b.price
    createdAt := b.createdAt, updatedAt := b.updatedAt }

/-- A cached value: JSON bytes that parse as one record, or as a listing of
records, or as neither (corrupt data). -/
inductive CacheVal where
  | recVal (b : Bitcoin)
  | listVal (l : List Bitcoin)
  | corrupt (s : String)
deriving DecidableEq

/-- `json.Marshal` of one record (total: marshalling this struct cannot fail). -/
def marshalRecord (b : Bitcoin) : CacheVal := .recVal b

/-- `json.Unmarshal` of cached bytes into a single `Bitcoin`: fails unless the
bytes are the serialization of a single record. -/
def unmarshalRecord : CacheVal → Option Bitcoin
  | .recVal b => some b
  | _ => none

/-- `json.Marshal` of a ranked listing. -/
def marshalRankings (l : List Bitcoin) : CacheVal := .listVal l

/-- `json.Unmarshal` of cached bytes into `[]Bitcoin`: fails unless the bytes
are the serialization of a listing. -/
def unmarshalRankings : CacheVal → Option (List Bitcoin)
  | .listVal l => some l
  | _ => none

/-- The key-value cache: an association list from keys to values. -/
abbrev Cache := List (String × CacheVal)

/-- Redis `Get`: first binding of the key, `none` on a miss. -/
def cacheLookup (c : Cache) (k : String) : Option CacheVal :=
  match c with
  | [] => none
  | (k', v) :: rest => if k' == k then some v else cacheLookup rest k

/-- Remove every binding of a key. -/
def eraseKey (k : String) (c : Cache) : Cache :=
  match c with
  | [] => []
  | (k', v) :: rest =>
      if k' == k then eraseKey k rest else (k', v) :: eraseKey k rest

/-- Redis `Set k v` whose call succeeded iff `ok`; a failed `Set` writes
nothing. -/
def cacheSet (c : Cache) (k : String) (v : CacheVal) (ok : Bool) : Cache :=
  if ok then (k, v) :: eraseKey k c else c

/-- Redis `Del k` whose call succeeded iff `ok`; a failed `Del` leaves the
key in place. -/
def cacheDel (c : Cache) (k : String) (ok : Bool) : Cache :=
  if ok then eraseKey k c else c

/-- The `rankCacheKey` constant `"bitcoin:rankings"` of the source. -/
def rankCacheKey : String := "bitcoin:rankings"

/-- `getBitcoinCacheKey`: the source formats the constant `"bitcoin:"`
followed by the symbol. -/
def getBitcoinCacheKey (symbol : String) : String := "bitcoin:" ++ symbol

/-- The whole system state: the `bitcoins` table and the cache. -/
structure SysState where
  db : List DBRow
  cache : Cache
deriving DecidableEq

/-- `SELECT ... WHERE symbol = $1`: first row with the given symbol
(the primary key makes it unique in reachable states). -/
def dbFind (db : List DBRow) (symbol : String) : Option DBRow :=
  match db with
  | [] => none
  | r :: rest => if r.symbol == symbol then some r else dbFind rest symbol

/-- The `DO UPDATE SET price = $2, updated_at = CURRENT_TIMESTAMP` action on
one row (applied to the rows whose symbol conflicts). -/
def rowUpdate (symbol : String) (price : Int) (now : Nat) (r : DBRow) : DBRow :=
  if r.symbol == symbol then { r with price := price, updatedAt := now } else r

/-- `INSERT ... ON CONFLICT (symbol) DO UPDATE ... RETURNING ...`: returns the
resulting row and the new table.  On conflict the existing row keeps its
`created_at` and gets the new price and `updated_at`; otherwise a fresh row
with both timestamps set to now is appended. -/
def dbUpsert (db : List DBRow) (symbol : String) (price : Int) (now : Nat) :
    DBRow × List DBRow :=
  match dbFind db symbol with
  | some r0 =>
      ({ r0 with price := price, updatedAt := now }, db.map (rowUpdate symbol price now))
  | none =>
      (⟨symbol, price, now, now⟩, db ++ [⟨symbol, price, now, now⟩])

/-- Rows remaining after `DELETE FROM bitcoins WHERE symbol = $1`. -/
def dbRemove (db : List DBRow) (symbol : String) : List DBRow :=
  match db with
  | [] => []
  | r :: rest =>
      if r.symbol == symbol then dbRemove rest symbol
      else r :: dbRemove rest symbol

/-- `DELETE ... RETURNING ...` read through `QueryRow`: the removed row (if
any) and the new table. -/
def dbDelete (db : List DBRow) (symbol : String) : Option DBRow × List DBRow :=
  (dbFind db symbol, dbRemove db symbol)

/-- The `ORDER BY price DESC` ordering on rows. -/
def priceGe (a b : DBRow) : Prop := b.price ≤ a.price

instance : DecidableRel priceGe :=
  fun a b => inferInstanceAs (Decidable (b.price ≤ a.price))

instance : IsTotal DBRow priceGe := ⟨fun a b => Int.le_total b.price a.price⟩

instance : IsTrans DBRow priceGe := ⟨fun _ _ _ h1 h2 => le_trans h2 h1⟩

/-- `SELECT ... ORDER BY price DESC`.  SQL leaves the relative order of
price-ties unspecified; the model fixes it as the stable order of the table. -/
def sortByPriceDesc (db : List DBRow) : List DBRow :=
  List.insertionSort priceGe db

/-- `ROW_NUMBER() OVER (ORDER BY price DESC)`: the i-th row of the ordered
result gets rank `n + i` (the query starts at `n = 1`). -/
def assignRanks (n : Nat) (rows : List DBRow) : List Bitcoin :=
  match rows with
  | [] => []
  | r :: rest => { rowToBitcoin r with rank := some n } :: assignRanks (n + 1) rest

/-- The ranked-listing query of `GetBitcoinsRanked`: all rows ordered by
price descending, with row-number ranks starting at 1. -/
def rankedQuery (db : List DBRow) : List Bitcoin :=
  assignRanks 1 (sortByPriceDesc db)

/-- The store-lookup half of `GetBitcoin` (runs on a cache miss or on a
corrupt cached value): not-found is `ok none`; a found row is written back to
the cache best-effort and returned. -/
def getBitcoinFromStore (st : SysState) (symbol : String) (dbOk cacheSetOk : Bool) :
    Except Unit (Option Bitcoin) × SysState :=
  if dbOk then
    match dbFind st.db symbol with
    | none => (.ok none, st)
    | some r =>
        (.ok (some (rowToBitcoin r)),
         ⟨st.db,
          cacheSet st.cache (getBitcoinCacheKey symbol)
            (marshalRecord (rowToBitcoin r)) cacheSetOk⟩)
  else (.error (), st)

/-- `GetBitcoin`: read-through fetch.  A cache hit that deserializes returns
the cached record; a hit that fails to deserialize is logged and falls
through to the store, as does a miss. -/
def GetBitcoin (st : SysState) (symbol : String) (dbOk cacheSetOk : Bool) :
    Except Unit (Option Bitcoin) × SysState :=
  match cacheLookup st.cache (getBitcoinCacheKey symbol) with
  | some v =>
      match unmarshalRecord v with
      | some b => (.ok (some b), st)
      | none => getBitcoinFromStore st symbol dbOk cacheSetOk
  | none => getBitcoinFromStore st symbol dbOk cacheSetOk

/-- `SetBitcoin`: write-through upsert.  Store failure returns the error with
no cache mutation; on store success the item entry is written best-effort and
the ranking key is deleted best-effort, and the store's row is returned. -/
def SetBitcoin (st : SysState) (symbol : String) (price : Int) (now : Nat)
    (dbOk cacheSetOk rankDelOk : Bool) : Except Unit Bitcoin × SysState :=
  if dbOk then
    (.ok (rowToBitcoin (dbUpsert st.db symbol price now).1),
     ⟨(dbUpsert st.db symbol price now).2,
      cacheDel
        (cacheSet st.cache (getBitcoinCacheKey symbol)
          (marshalRecord (rowToBitcoin (dbUpsert st.db symbol price now).1)) cacheSetOk)
        rankCacheKey rankDelOk⟩)
  else (.error (), st)

/-- `DeleteBitcoin`: delete-returning from the store; not-found returns
`ok none` with no cache mutation; on a removed row the item key and the
ranking key are deleted best-effort. -/
def DeleteBitcoin (st : SysState) (symbol : String) (dbOk itemDelOk rankDelOk : Bool) :
    Except Unit (Option Bitcoin) × SysState :=
  if dbOk then
    match dbFind st.db symbol with
    | none => (.ok none, st)
    | some r =>
        (.ok (some (rowToBitcoin r)),
         ⟨dbRemove st.db symbol,
          cacheDel (cacheDel st.cache (getBitcoinCacheKey symbol) itemDelOk)
            rankCacheKey rankDelOk⟩)
  else (.error (), st)

/-- `GetBitcoinsRanked`: serve a cached listing that deserializes; otherwise
run the ranked query, cache it best-effort and return it. -/
def GetBitcoinsRanked (st : SysState) (dbOk cacheSetOk : Bool) :
    Except Unit (List Bitcoin) × SysState :=
  match cacheLookup st.cache rankCacheKey with
  | some v =>
      match unmarshalRankings v with
      | some l => (.ok l, st)
      | none =>
          if dbOk then
            (.ok (rankedQuery st.db),
             ⟨st.db, cacheSet st.cache rankCacheKey
                (marshalRankings (rankedQuery st.db)) cacheSetOk⟩)
          else (.error (), st)
  | none =>
      if dbOk then
        (.ok (rankedQuery st.db),
         ⟨st.db, cacheSet st.cache rankCacheKey
            (marshalRankings (rankedQuery st.db)) cacheSetOk⟩)
      else (.error (), st)

/-- The row loop of `PrimeCache` over the ordered rows: a failed `Scan` of
row i (`scanOk i = false`) or a failed cache `Set` (`setOk i = false`) skips
that row without counting it; marshalling cannot fail.  Returns the cache and
the count of successfully primed rows.  (The source also accumulates the rows
in a slice it never uses afterwards; that slice is omitted.) -/
def primeLoop (c : Cache) (rows : List DBRow) (i : Nat) (scanOk setOk : Nat → Bool) :
    Cache × Nat :=
  match rows with
  | [] => (c, 0)
  | r :: rest =>
      if scanOk i then
        if setOk i then
          let step := primeLoop
            (cacheSet c (getBitcoinCacheKey r.symbol)
              (marshalRecord (rowToBitcoin r)) true)
            rest (i + 1) scanOk setOk
          (step.1, step.2 + 1)
        else primeLoop c rest (i + 1) scanOk setOk
      else primeLoop c rest (i + 1) scanOk setOk

/-- `PrimeCache`: query all rows ordered by price descending (a query failure
is returned as the error with nothing cached) and prime the item cache entry
of each row, skipping per-row failures.  The returned count models the logged
number of primed records. -/
def PrimeCache (st : SysState) (dbOk : Bool) (scanOk setOk : Nat → Bool) :
    Except Unit Nat × SysState :=
  if dbOk then
    (.ok (primeLoop st.cache (sortByPriceDesc st.db) 0 scanOk setOk).2,
     ⟨st.db, (primeLoop st.cache (sortByPriceDesc st.db) 0 scanOk setOk).1⟩)
  else (.error (), st)

theorem cacheLookup_cons_self (c : Cache) (k : String) (v : CacheVal) :
    cacheLookup ((k, v) :: c) k = some v := by
  simp [cacheLookup]

theorem cacheLookup_cons_ne (c : Cache) (k k' : String) (v : CacheVal) (h : k ≠ k') :
    cacheLookup ((k, v) :: c) k' = cacheLookup c k' := by
  simp [cacheLookup, h]

theorem cacheLookup_eraseKey_self (c : Cache) (k : String) :
    cacheLookup (eraseKey k c) k = none := by
  induction c with
  | nil => rfl
  | cons kv rest ih =>
      obtain ⟨k0, v⟩ := kv
      by_cases h : k0 = k
      · simpa [eraseKey, h] using ih
      · simpa [eraseKey, cacheLookup, h] using ih

theorem cacheLookup_eraseKey_ne (c : Cache) (k k' : String) (h : k ≠ k') :
    cacheLookup (eraseKey k c) k' = cacheLookup c k' := by
  induction c with
  | nil => rfl
  | cons kv rest ih =>
      obtain ⟨k0, v⟩ := kv
      by_cases h0 : k0 = k
      · subst h0
        have hne : k0 ≠ k' := fun hh => h (hh ▸ rfl)
        simp [eraseKey, cacheLookup, hne, ih]
      · by_cases h1 : k0 = k'
        · subst h1
          simp [eraseKey, cacheLookup, h0, ih]
        · simpa [eraseKey, cacheLookup, h0, h1] using ih

theorem dbUpsert_fst_price (db : List DBRow) (s : String) (p : Int) (now : Nat) :
    (dbUpsert db s p now).1.price = p := by
  unfold dbUpsert; cases dbFind db s <;> rfl

theorem dbFind_append_of_none (db l2 : List DBRow) (s : String)
    (h : dbFind db s = none) : dbFind (db ++ l2) s = dbFind l2 s := by
  induction db with
  | nil => rfl
  | cons r rest ih =>
      by_cases h0 : r.symbol = s
      · simp [dbFind, h0] at h
      · simp only [dbFind, beq_iff_eq, if_neg h0] at h
        simpa [dbFind, h0] using ih h

theorem dbFind_map_rowUpdate (db : List DBRow) (s : String) (p : Int) (now : Nat)
    (r0 : DBRow) (h : dbFind db s = some r0) :
    dbFind (db.map (rowUpdate s p now)) s =
      some { r0 with price := p, updatedAt := now } := by
  induction db with
  | nil => cases h
  | cons r rest ih =>
      by_cases h0 : r.symbol = s
      · simp only [dbFind, h0, if_pos, beq_iff_eq, Option.some.injEq] at h
        subst h
        simp [dbFind, rowUpdate, h0]
      · simp only [dbFind, h0] at h
        simp only [beq_iff_eq, if_neg h0] at h
        simpa [dbFind, rowUpdate, h0] using ih h

theorem dbFind_dbUpsert_self (db : List DBRow) (s : String) (p : Int) (now : Nat) :
    dbFind (dbUpsert db s p now).2 s = some (dbUpsert db s p now).1 := by
  cases h : dbFind db s with
  | none =>
      simp only [dbUpsert, h]
      rw [dbFind_append_of_none db _ s h]
      simp [dbFind]
  | some r0 =>
      simp only [dbUpsert, h]
      exact dbFind_map_rowUpdate db s p now r0 h

theorem setBitcoin_eq (st : SysState) (s : String) (p : Int) (now : Nat)
    (cSet rDel : Bool) :
    SetBitcoin st s p now true cSet rDel =
      (.ok (rowToBitcoin (dbUpsert st.db s p now).1),
       ⟨(dbUpsert st.db s p now).2,
        cacheDel
          (cacheSet st.cache (getBitcoinCacheKey s)
            (marshalRecord (rowToBitcoin (dbUpsert st.db s p now).1)) cSet)
          rankCacheKey rDel⟩) := rfl

theorem setBitcoin_cache_new_or_absent (st : SysState) (s : String) (p : Int)
    (now : Nat) (rDel : Bool) :
    cacheLookup (SetBitcoin st s p now true true rDel).2.cache (getBitcoinCacheKey s) =
        some (marshalRecord (rowToBitcoin (dbUpsert st.db s p now).1)) ∨
    cacheLookup (SetBitcoin st s p now true true rDel).2.cache (getBitcoinCacheKey s) =
        none := by
  rw [setBitcoin_eq]
  cases rDel with
  | false =>
      left
      simp [cacheDel, cacheSet, cacheLookup_cons_self]
  | true =>
      by_cases hk : getBitcoinCacheKey s = rankCacheKey
      · right
        simp only [cacheDel, cacheSet, if_pos]
        rw [hk]
        exact cacheLookup_eraseKey_self _ _
      · left
        simp only [cacheDel, cacheSet, if_pos]
        rw [cacheLookup_eraseKey_ne _ rankCacheKey _ (Ne.symm hk)]
        exact cacheLookup_cons_self _ _ _

theorem getBitcoin_hit (st : SysState) (s : String) (v : CacheVal) (b : Bitcoin)
    (hc : cacheLookup st.cache (getBitcoinCacheKey s) = some v)
    (hv : unmarshalRecord v = some b) (d w : Bool) :
    GetBitcoin st s d w = (.ok (some b), st) := by
  simp [GetBitcoin, hc, hv]

theorem getBitcoin_miss (st : SysState) (s : String)
    (hc : cacheLookup st.cache (getBitcoinCacheKey s) = none) (d w : Bool) :
    GetBitcoin st s d w = getBitcoinFromStore st s d w := by
  simp [GetBitcoin, hc]

theorem getBitcoin_corruptHit (st : SysState) (s : String) (v : CacheVal)
    (hc : cacheLookup st.cache (getBitcoinCacheKey s) = some v)
    (hv : unmarshalRecord v = none) (d w : Bool) :
    GetBitcoin st s d w = getBitcoinFromStore st s d w := by
  simp [GetBitcoin, hc, hv]

theorem getBitcoinFromStore_found (st : SysState) (s : String) (r : DBRow)
    (h : dbFind st.db s = some r) (w : Bool) :
    getBitcoinFromStore st s true w =
      (.ok (some (rowToBitcoin r)),
       ⟨st.db, cacheSet st.cache (getBitcoinCacheKey s)
          (marshalRecord (rowToBitcoin r)) w⟩) := by
  simp [getBitcoinFromStore, h]

theorem getBitcoinFromStore_notFound (st : SysState) (s : String)
    (h : dbFind st.db s = none) (w : Bool) :
    getBitcoinFromStore st s true w = (.ok none, st) := by
  simp [getBitcoinFromStore, h]

theorem getBitcoinsRanked_miss (st : SysState)
    (h : cacheLookup st.cache rankCacheKey = none) (w : Bool) :
    GetBitcoinsRanked st true w =
      (.ok (rankedQuery st.db),
       ⟨st.db, cacheSet st.cache rankCacheKey
          (marshalRankings (rankedQuery st.db)) w⟩) := by
  simp [GetBitcoinsRanked, h]

theorem assignRanks_get (rows : List DBRow) (n i : Nat)
    (h : i < (assignRanks n rows).length) :
    ((assignRanks n rows).get ⟨i, h⟩).rank = some (n + i) := by
  induction rows generalizing n i with
  | nil => cases h
  | cons r rest ih =>
      cases i with
      | zero => rfl
      | succ j =>
          have h' : j < (assignRanks (n + 1) rest).length :=
            Nat.lt_of_succ_lt_succ (by simpa [assignRanks] using h)
          calc ((assignRanks n (r :: rest)).get ⟨j + 1, h⟩).rank
              = ((assignRanks (n + 1) rest).get ⟨j, h'⟩).rank := rfl
            _ = some ((n + 1) + j) := ih (n + 1) j h'
            _ = some (n + (j + 1)) := congrArg some (by omega)

theorem assignRanks_mem (rows : List DBRow) (n : Nat) (y : Bitcoin)
    (hy : y ∈ assignRanks n rows) : ∃ r ∈ rows, y.price = r.price := by
  induction rows generalizing n with
  | nil => cases hy
  | cons r rest ih =>
      simp only [assignRanks] at hy
      rcases List.mem_cons.mp hy with h | h
      · exact ⟨r, List.mem_cons_self _ _, by rw [h]; rfl⟩

      · obtain ⟨r', hr', hp⟩ := ih (n + 1) h
        exact ⟨r', List.mem_cons_of_mem _ hr', hp⟩

theorem assignRanks_pairwise (rows : List DBRow) (n : Nat)
    (h : List.Pairwise priceGe rows) :
    List.Pairwise (fun a b : Bitcoin => b.price ≤ a.price) (assignRanks n rows) := by
  induction rows generalizing n with
  | nil => exact List.Pairwise.nil
  | cons r rest ih =>
      rcases List.pairwise_cons.mp h with ⟨hr, hrest⟩
      refine List.pairwise_cons.mpr ⟨?_, ih (n + 1) hrest⟩
      intro y hy
      obtain ⟨r', hr', hp⟩ := assignRanks_mem rest (n + 1) y hy
      show y.price ≤ r.price
      rw [hp]
      exact hr r' hr'

theorem assignRanks_map_row (rows : List DBRow) (n : Nat) :
    (assignRanks n rows).map bitcoinRow = rows := by
  induction rows generalizing n with
  | nil => rfl
  | cons r rest ih => simp [assignRanks, bitcoinRow, rowToBitcoin, ih]

theorem rankedQuery_pairwise (db : List DBRow) :
    List.Pairwise (fun a b : Bitcoin => b.price ≤ a.price) (rankedQuery db) :=
  assignRanks_pairwise _ 1 (List.sorted_insertionSort priceGe db)

theorem rankedQuery_rank (db : List DBRow) (i : Nat)
    (h : i < (rankedQuery db).length) :
    ((rankedQuery db).get ⟨i, h⟩).rank = some (i + 1) := by
  have := assignRanks_get (sortByPriceDesc db) 1 i h
  simpa [Nat.add_comm] using this

theorem rankedQuery_perm (db : List DBRow) :
    List.Perm ((rankedQuery db).map bitcoinRow) db := by
  unfold rankedQuery sortByPriceDesc
  rw [assignRanks_map_row]
  exact List.perm_insertionSort priceGe db

theorem primeLoop_frame (rows : List DBRow) (c : Cache) (i : Nat)
    (scanOk setOk : Nat → Bool) (k : String)
    (hk : ∀ r ∈ rows, getBitcoinCacheKey r.symbol ≠ k) :
    cacheLookup (primeLoop c rows i scanOk setOk).1 k = cacheLookup c k := by
  induction rows generalizing c i with
  | nil => rfl
  | cons r rest ih =>
      have hr : getBitcoinCacheKey r.symbol ≠ k := hk r (List.mem_cons_self _ _)
      have hrest : ∀ r' ∈ rest, getBitcoinCacheKey r'.symbol ≠ k :=
        fun r' h' => hk r' (List.mem_cons_of_mem _ h')
      cases hs : scanOk i with
      | false => simpa only [primeLoop, hs, if_neg] using ih _ (i + 1) hrest
      | true =>
          cases ht : setOk i with
          | false => simpa only [primeLoop, hs, ht, if_neg] using ih _ (i + 1) hrest
          | true =>
              simp only [primeLoop, hs, ht, if_pos]
              rw [ih _ (i + 1) hrest]
              simp only [cacheSet, if_pos]
              rw [cacheLookup_cons_ne _ _ _ _ hr]
              exact cacheLookup_eraseKey_ne _ _ _ hr

theorem primeLoop_count (rows : List DBRow) (c : Cache) (i : Nat)
    (scanOk setOk : Nat → Bool) :
    (primeLoop c rows i scanOk setOk).2 =
      ((List.range' i rows.length).filter (fun j => scanOk j && setOk j)).length := by
  induction rows generalizing c i with
  | nil => rfl
  | cons r rest ih =>
      cases hs : scanOk i <;> cases ht : setOk i <;>
        simp [primeLoop, hs, ht, List.range', List.filter_cons, ih _ (i + 1)]

theorem deleteBitcoin_found_eq (st : SysState) (s : String) (r : DBRow)
    (h : dbFind st.db s = some r) (iDel rDel : Bool) :
    DeleteBitcoin st s true iDel rDel =
      (.ok (some (rowToBitcoin r)),
       ⟨dbRemove st.db s,
        cacheDel (cacheDel st.cache (getBitcoinCacheKey s) iDel)
          rankCacheKey rDel⟩) := by
  simp [DeleteBitcoin, h]

/-- C6: if the store write fails, `SetBitcoin` returns an error and performs
no cache mutation: neither the item cache entry nor the ranking cache entry
is written or deleted — the whole state comes back unchanged. -/
theorem setBitcoin_store_failure_pure (st : SysState) (s : String) (p : Int)
    (now : Nat) (cSet rDel : Bool) :
    SetBitcoin st s p now false cSet rDel = (.error (), st) := rfl

/-- C9: the item cache key of the symbol "rankings" coincides with the
ranking cache key, and consequently after a successful fault-free
`SetBitcoin "rankings" p` the item cache entry for that symbol is absent:
the unconditional ranking invalidation deletes the entry just written. -/
theorem rankings_symbol_key_collision (st : SysState) (p : Int) (now : Nat) :
    getBitcoinCacheKey "rankings" = rankCacheKey ∧
    cacheLookup (SetBitcoin st "rankings" p now true true true).2.cache
      (getBitcoinCacheKey "rankings") = none := by
  constructor
  · decide
  · rw [setBitcoin_eq]
    show cacheLookup (eraseKey rankCacheKey _) (getBitcoinCacheKey "rankings") = none
    rw [show getBitcoinCacheKey "rankings" = rankCacheKey by decide]
    exact cacheLookup_eraseKey_self _ _

/-- C8: a symbol absent from both the cache and the store yields a nil result
with no error (`ok none`, not-found is a normal outcome) and leaves the state
untouched; moreover with a healthy store query `GetBitcoin` never returns an
error, whatever the cache holds. -/
theorem getBitcoin_absent_returns_none_no_error (st : SysState) (s : String)
    (w : Bool) (hc : cacheLookup st.cache (getBitcoinCacheKey s) = none)
    (hr : dbFind st.db s = none) :
    GetBitcoin st s true w = (.ok none, st) ∧
    ∀ (st' : SysState) (s' : String) (w' : Bool),
      (GetBitcoin st' s' true w').1 ≠ .error () := by
  constructor
  · rw [getBitcoin_miss st s hc, getBitcoinFromStore_notFound st s hr]
  · intro st' s' w'
    cases hl : cacheLookup st'.cache (getBitcoinCacheKey s') with
    | none =>
        rw [getBitcoin_miss st' s' hl]
        cases hf : dbFind st'.db s' with
        | none => rw [getBitcoinFromStore_notFound st' s' hf]; simp
        | some r => rw [getBitcoinFromStore_found st' s' r hf]; simp
    | some v =>
        cases hv : unmarshalRecord v with
        | none =>
            rw [getBitcoin_corruptHit st' s' v hl hv]
            cases hf : dbFind st'.db s' with
            | none => rw [getBitcoinFromStore_notFound st' s' hf]; simp
            | some r => rw [getBitcoinFromStore_found st' s' r hf]; simp
        | some b => rw [getBitcoin_hit st' s' v b hl hv]; simp

/-- Witness for C8 at a concrete input: empty store and empty cache. -/
theorem getBitcoin_absent_returns_none_no_error_witness :
    cacheLookup (SysState.mk [] []).cache (getBitcoinCacheKey "BTC") = none ∧
    dbFind (SysState.mk [] []).db "BTC" = none ∧
    GetBitcoin ⟨[], []⟩ "BTC" true true = (.ok none, ⟨[], []⟩) :=
  ⟨rfl, rfl, (getBitcoin_absent_returns_none_no_error ⟨[], []⟩ "BTC" true rfl rfl).1⟩

/-- C5: a corrupt item cache entry for a symbol that exists in the store does
not fail the read: `GetBitcoin` falls through to the store lookup and returns
the store-backed record. -/
theorem getBitcoin_corrupt_cache_falls_through (st : SysState) (s : String)
    (v : CacheVal) (r : DBRow) (w : Bool)
    (hc : cacheLookup st.cache (getBitcoinCacheKey s) = some v)
    (hv : unmarshalRecord v = none)
    (hr : dbFind st.db s = some r) :
    (GetBitcoin st s true w).1 = .ok (some (rowToBitcoin r)) := by
  rw [getBitcoin_corruptHit st s v hc hv, getBitcoinFromStore_found st s r hr]

/-- Witness for C5 at a concrete input: unparseable bytes cached under the
key of a stored symbol. -/
theorem getBitcoin_corrupt_cache_falls_through_witness :
    cacheLookup (SysState.mk [⟨"BTC", 7, 0, 0⟩]
        [("bitcoin:BTC", .corrupt "garbage")]).cache
        (getBitcoinCacheKey "BTC") = some (.corrupt "garbage") ∧
    unmarshalRecord (.corrupt "garbage") = none ∧
    dbFind (SysState.mk [⟨"BTC", 7, 0, 0⟩]
        [("bitcoin:BTC", .corrupt "garbage")]).db "BTC" = some ⟨"BTC", 7, 0, 0⟩ ∧
    (GetBitcoin ⟨[⟨"BTC", 7, 0, 0⟩], [("bitcoin:BTC", .corrupt "garbage")]⟩
        "BTC" true true).1 = .ok (some (rowToBitcoin ⟨"BTC", 7, 0, 0⟩)) :=
  ⟨by decide, rfl, by decide,
   getBitcoin_corrupt_cache_falls_through _ "BTC" (.corrupt "garbage")
     ⟨"BTC", 7, 0, 0⟩ true (by decide) rfl (by decide)⟩

/-- C10: a corrupt item cache entry for a symbol that is absent from the
store yields `ok none` with the state returned exactly unchanged: the corrupt
entry is neither deleted nor overwritten and no other entry is touched. -/
theorem getBitcoin_corrupt_absent_frame (st : SysState) (s : String)
    (v : CacheVal) (w : Bool)
    (hc : cacheLookup st.cache (getBitcoinCacheKey s) = some v)
    (hv : unmarshalRecord v = none)
    (hr : dbFind st.db s = none) :
    GetBitcoin st s true w = (.ok none, st) := by
  rw [getBitcoin_corruptHit st s v hc hv, getBitcoinFromStore_notFound st s hr]

/-- Witness for C10 at a concrete input: the corrupt entry survives the call
verbatim. -/
theorem getBitcoin_corrupt_absent_frame_witness :
    cacheLookup (SysState.mk [] [("bitcoin:BTC", .corrupt "junk")]).cache
        (getBitcoinCacheKey "BTC") = some (.corrupt "junk") ∧
    unmarshalRecord (.corrupt "junk") = none ∧
    dbFind (SysState.mk [] [("bitcoin:BTC", .corrupt "junk")]).db "BTC" = none ∧
    GetBitcoin ⟨[], [("bitcoin:BTC", .corrupt "junk")]⟩ "BTC" true true =
      (.ok none, ⟨[], [("bitcoin:BTC", .corrupt "junk")]⟩) :=
  ⟨by decide, rfl, rfl,
   getBitcoin_corrupt_absent_frame _ "BTC" (.corrupt "junk") true (by decide) rfl rfl⟩

/-- The state used in the C1 and C2 counterexamples: the store holds BTC at
price 1 and the item cache holds its (soon stale) serialization. -/
def staleStart : SysState :=
  ⟨[⟨"BTC", 1, 0, 0⟩], [("bitcoin:BTC", .recVal ⟨"BTC", 1, none, 0, 0⟩)]⟩

/-- C1 (counterexample): the item-cache write is best-effort — when the Redis
`Set` fails, `SetBitcoin` still returns success but the stale pre-write value
remains in the item cache: it is neither the new record nor absent. -/
theorem setBitcoin_stale_after_cacheSet_failure :
    (SetBitcoin staleStart "BTC" 2 5 true false true).1 =
        .ok ⟨"BTC", 2, none, 0, 5⟩ ∧
    cacheLookup (SetBitcoin staleStart "BTC" 2 5 true false true).2.cache
        (getBitcoinCacheKey "BTC") = some (.recVal ⟨"BTC", 1, none, 0, 0⟩) ∧
    CacheVal.recVal ⟨"BTC", 1, none, 0, 0⟩ ≠
        marshalRecord ⟨"BTC", 2, none, 0, 5⟩ := by
  decide

/-- C1 (amended): after `SetBitcoin s p` completes successfully and the
best-effort item-cache write succeeded, the item cache entry for `s` either
holds the new record returned by the store (whose price is `p`) or is absent
(explicitly cleared); a stale pre-write value can remain only when the cache
write fails. -/
theorem setBitcoin_writeThrough_fresh_or_cleared (st : SysState) (s : String)
    (p : Int) (now : Nat) (rDel : Bool) :
    ∃ b : Bitcoin,
      (SetBitcoin st s p now true true rDel).1 = .ok b ∧ b.price = p ∧
      (cacheLookup (SetBitcoin st s p now true true rDel).2.cache
          (getBitcoinCacheKey s) = some (marshalRecord b) ∨
       cacheLookup (SetBitcoin st s p now true true rDel).2.cache
          (getBitcoinCacheKey s) = none) := by
  refine ⟨rowToBitcoin (dbUpsert st.db s p now).1, ?_, ?_, ?_⟩
  · rw [setBitcoin_eq]
  · exact dbUpsert_fst_price st.db s p now
  · exact setBitcoin_cache_new_or_absent st s p now rDel

/-- C2 (counterexample): when the best-effort item-cache write inside
`SetBitcoin` fails, the call still returns success and an immediately
subsequent `GetBitcoin` hits the stale cache entry: it returns the pre-write
price 1, not the written price 2. -/
theorem setBitcoin_get_stale_hit_after_cacheSet_failure :
    (SetBitcoin staleStart "BTC" 2 5 true false true).1 =
        .ok ⟨"BTC", 2, none, 0, 5⟩ ∧
    (GetBitcoin (SetBitcoin staleStart "BTC" 2 5 true false true).2
        "BTC" true true).1 = .ok (some ⟨"BTC", 1, none, 0, 0⟩) := by
  decide

/-- C2 (amended): if `SetBitcoin s p` returns success and its best-effort
item-cache write succeeded, a subsequent `GetBitcoin s` returns a non-nil
record whose price is `p`, both when the read hits the cache and when the
entry has been evicted in between (forced miss). -/
theorem setBitcoin_then_getBitcoin_returns_new_price (st : SysState)
    (s : String) (p : Int) (now : Nat) (rDel evict w : Bool) :
    ∃ r : Bitcoin,
      (GetBitcoin
          (if evict then
            ⟨(SetBitcoin st s p now true true rDel).2.db,
             eraseKey (getBitcoinCacheKey s)
               (SetBitcoin st s p now true true rDel).2.cache⟩
          else (SetBitcoin st s p now true true rDel).2) s true w).1 =
        .ok (some r) ∧ r.price = p := by
  cases evict with
  | true =>
      refine ⟨rowToBitcoin (dbUpsert st.db s p now).1, ?_, dbUpsert_fst_price st.db s p now⟩
      show (GetBitcoin
          ⟨(SetBitcoin st s p now true true rDel).2.db,
           eraseKey (getBitcoinCacheKey s)
             (SetBitcoin st s p now true true rDel).2.cache⟩ s true w).1 =
        .ok (some (rowToBitcoin (dbUpsert st.db s p now).1))
      rw [getBitcoin_miss _ s (cacheLookup_eraseKey_self _ _) true w,
        getBitcoinFromStore_found _ s (dbUpsert st.db s p now).1
          (by rw [setBitcoin_eq]; exact dbFind_dbUpsert_self st.db s p now) w]
  | false =>
      refine ⟨rowToBitcoin (dbUpsert st.db s p now).1, ?_, dbUpsert_fst_price st.db s p now⟩
      show (GetBitcoin (SetBitcoin st s p now true true rDel).2 s true w).1 =
        .ok (some (rowToBitcoin (dbUpsert st.db s p now).1))
      rcases setBitcoin_cache_new_or_absent st s p now rDel with hc | hc
      · rw [getBitcoin_hit _ s _ _ hc rfl true w]
      · rw [getBitcoin_miss _ s hc true w,
          getBitcoinFromStore_found _ s (dbUpsert st.db s p now).1
            (by rw [setBitcoin_eq]; exact dbFind_dbUpsert_self st.db s p now) w]

/-- C3: when `GetBitcoinsRanked` computes from the store (ranking-cache miss,
or a cached value that does not deserialize), it returns the stored rows in
non-increasing price order, the entry at position i carries rank i + 1
(row-number semantics: ties get distinct sequential ranks), and the rows
listed are exactly the stored rows. -/
theorem getBitcoinsRanked_sorted_ranked_perm (st : SysState) (w : Bool)
    (h : ∀ v, cacheLookup st.cache rankCacheKey = some v →
      unmarshalRankings v = none) :
    ∃ l : List Bitcoin,
      (GetBitcoinsRanked st true w).1 = .ok l ∧
      List.Pairwise (fun a b : Bitcoin => b.price ≤ a.price) l ∧
      (∀ i (hi : i < l.length), (l.get ⟨i, hi⟩).rank = some (i + 1)) ∧
      List.Perm (l.map bitcoinRow) st.db := by
  refine ⟨rankedQuery st.db, ?_, rankedQuery_pairwise st.db,
    fun i hi => rankedQuery_rank st.db i hi, rankedQuery_perm st.db⟩
  cases hl : cacheLookup st.cache rankCacheKey with
  | none => rw [getBitcoinsRanked_miss st hl]
  | some v => simp [GetBitcoinsRanked, hl, h v hl]

/-- Witness for C3 at the seed data of the repository, with an empty cache. -/
theorem getBitcoinsRanked_sorted_ranked_perm_witness :
    (∀ v, cacheLookup (SysState.mk
        [⟨"BTC", 65000, 0, 0⟩, ⟨"ETH", 3500, 0, 0⟩, ⟨"BNB", 450, 0, 0⟩]
        []).cache rankCacheKey = some v → unmarshalRankings v = none) ∧
    (∃ l : List Bitcoin,
      (GetBitcoinsRanked ⟨[⟨"BTC", 65000, 0, 0⟩, ⟨"ETH", 3500, 0, 0⟩,
          ⟨"BNB", 450, 0, 0⟩], []⟩ true true).1 = .ok l ∧
      List.Pairwise (fun a b : Bitcoin => b.price ≤ a.price) l ∧
      (∀ i (hi : i < l.length), (l.get ⟨i, hi⟩).rank = some (i + 1)) ∧
      List.Perm (l.map bitcoinRow)
        [⟨"BTC", 65000, 0, 0⟩, ⟨"ETH", 3500, 0, 0⟩, ⟨"BNB", 450, 0, 0⟩]) :=
  ⟨fun _ h => Option.noConfusion h,
   getBitcoinsRanked_sorted_ranked_perm
     ⟨[⟨"BTC", 65000, 0, 0⟩, ⟨"ETH", 3500, 0, 0⟩, ⟨"BNB", 450, 0, 0⟩], []⟩
     true (fun _ h => Option.noConfusion h)⟩

/-- The state used in the C4 counterexample: a stale cached ranking listing. -/
def staleRankState : SysState :=
  ⟨[⟨"ETH", 3, 0, 0⟩], [("bitcoin:rankings", .listVal [⟨"OLD", 1, some 1, 0, 0⟩])]⟩

/-- C4 (counterexample): the ranking invalidation is best-effort and its Redis
`Del` error is discarded — when that delete fails, a successful `SetBitcoin`
leaves the old listing cached, and the next `GetBitcoinsRanked` serves the
ranking entry written before the call instead of recomputing from the store. -/
theorem rankings_stale_after_del_failure :
    (SetBitcoin staleRankState "BTC" 2 5 true true false).1 =
        .ok ⟨"BTC", 2, none, 5, 5⟩ ∧
    (GetBitcoinsRanked (SetBitcoin staleRankState "BTC" 2 5 true true false).2
        true true).1 = .ok [⟨"OLD", 1, some 1, 0, 0⟩] ∧
    rankedQuery (SetBitcoin staleRankState "BTC" 2 5 true true false).2.db ≠
        [⟨"OLD", 1, some 1, 0, 0⟩] := by
  decide

/-- C4 (amended): provided the best-effort delete of the ranking key
succeeds, after a successful `SetBitcoin` — and after a successful
`DeleteBitcoin` that removed a row — the ranking cache entry is absent, so
the next `GetBitcoinsRanked` does not serve any earlier ranking entry and
recomputes the listing from the store. -/
theorem rankings_invalidated_after_write_and_delete
    (st stD : SysState) (s sD : String) (p : Int) (now : Nat)
    (cSet iDel w w' : Bool) (r : DBRow) (hD : dbFind stD.db sD = some r) :
    (cacheLookup (SetBitcoin st s p now true cSet true).2.cache rankCacheKey =
        none ∧
     (GetBitcoinsRanked (SetBitcoin st s p now true cSet true).2 true w).1 =
        .ok (rankedQuery (SetBitcoin st s p now true cSet true).2.db)) ∧
    (cacheLookup (DeleteBitcoin stD sD true iDel true).2.cache rankCacheKey =
        none ∧
     (GetBitcoinsRanked (DeleteBitcoin stD sD true iDel true).2 true w').1 =
        .ok (rankedQuery (DeleteBitcoin stD sD true iDel true).2.db)) := by
  have hs : cacheLookup (SetBitcoin st s p now true cSet true).2.cache
      rankCacheKey = none := by
    rw [setBitcoin_eq]
    exact cacheLookup_eraseKey_self _ _
  have hd : cacheLookup (DeleteBitcoin stD sD true iDel true).2.cache
      rankCacheKey = none := by
    rw [deleteBitcoin_found_eq stD sD r hD]
    exact cacheLookup_eraseKey_self _ _
  exact ⟨⟨hs, by rw [getBitcoinsRanked_miss _ hs]⟩,
         ⟨hd, by rw [getBitcoinsRanked_miss _ hd]⟩⟩

/-- Witness for C4 at concrete inputs: a fresh write and the delete of a
stored row. -/
theorem rankings_invalidated_after_write_and_delete_witness :
    dbFind (SysState.mk [⟨"BTC", 1, 0, 0⟩] []).db "BTC" = some ⟨"BTC", 1, 0, 0⟩ ∧
    ((cacheLookup (SetBitcoin ⟨[], []⟩ "ETH" 9 4 true true true).2.cache
        rankCacheKey = none ∧
      (GetBitcoinsRanked (SetBitcoin ⟨[], []⟩ "ETH" 9 4 true true true).2
          true true).1 =
        .ok (rankedQuery (SetBitcoin ⟨[], []⟩ "ETH" 9 4 true true true).2.db)) ∧
     (cacheLookup (DeleteBitcoin ⟨[⟨"BTC", 1, 0, 0⟩], []⟩ "BTC" true true
          true).2.cache rankCacheKey = none ∧
      (GetBitcoinsRanked (DeleteBitcoin ⟨[⟨"BTC", 1, 0, 0⟩], []⟩ "BTC" true true
          true).2 true true).1 =
        .ok (rankedQuery (DeleteBitcoin ⟨[⟨"BTC", 1, 0, 0⟩], []⟩ "BTC" true true
          true).2.db))) :=
  ⟨by decide,
   rankings_invalidated_after_write_and_delete ⟨[], []⟩ ⟨[⟨"BTC", 1, 0, 0⟩], []⟩
     "ETH" "BTC" 9 4 true true true true ⟨"BTC", 1, 0, 0⟩ (by decide)⟩

/-- The state used in the C7 counterexample: a stored row whose symbol is
"rankings", plus a previously cached ranking listing. -/
def rankedRowState : SysState :=
  ⟨[⟨"rankings", 10, 0, 0⟩],
   [("bitcoin:rankings", .listVal [⟨"OLD", 1, some 1, 0, 0⟩])]⟩

/-- C7 (counterexample): `PrimeCache` does write the ranking cache entry when
the store contains a row named "rankings": that row's item key is the ranking
key, so priming it overwrites the cached listing with a single-record value. -/
theorem primeCache_overwrites_rankings_key :
    cacheLookup rankedRowState.cache rankCacheKey =
        some (.listVal [⟨"OLD", 1, some 1, 0, 0⟩]) ∧
    (PrimeCache rankedRowState true (fun _ => true) (fun _ => true)).1 =
        .ok 1 ∧
    cacheLookup (PrimeCache rankedRowState true (fun _ => true)
        (fun _ => true)).2.cache rankCacheKey =
      some (.recVal ⟨"rankings", 10, none, 0, 0⟩) := by
  decide

/-- C7 (amended): with a healthy store query, `PrimeCache` writes only the
item cache keys of stored rows — any key that is the item key of no stored
row (in particular the ranking key, when no row is named "rankings") keeps
its prior value; its reported count is the number of rows whose scan and
cache write both succeeded, a failed row being skipped without stopping the
loop; and a failing store query is returned as the error with the state
untouched. -/
theorem primeCache_item_keys_count_error (st : SysState)
    (scanOk setOk : Nat → Bool) (k : String)
    (hk : ∀ r ∈ st.db, getBitcoinCacheKey r.symbol ≠ k) :
    cacheLookup (PrimeCache st true scanOk setOk).2.cache k =
        cacheLookup st.cache k ∧
    (PrimeCache st true scanOk setOk).1 =
      .ok (((List.range' 0 (sortByPriceDesc st.db).length).filter
        (fun j => scanOk j && setOk j)).length) ∧
    PrimeCache st false scanOk setOk = (.error (), st) := by
  refine ⟨?_, ?_, rfl⟩
  · show cacheLookup
        (primeLoop st.cache (sortByPriceDesc st.db) 0 scanOk setOk).1 k = _
    refine primeLoop_frame _ _ _ _ _ _ ?_
    intro r hr
    exact hk r (by simpa [sortByPriceDesc] using hr)
  · show Except.ok (primeLoop st.cache (sortByPriceDesc st.db) 0 scanOk setOk).2
        = _
    rw [primeLoop_count]

/-- Witness for C7 at a concrete input: one stored row, all calls healthy,
probing the ranking key. -/
theorem primeCache_item_keys_count_error_witness :
    (∀ r ∈ (SysState.mk [⟨"BTC", 1, 0, 0⟩] []).db,
      getBitcoinCacheKey r.symbol ≠ rankCacheKey) ∧
    (cacheLookup (PrimeCache ⟨[⟨"BTC", 1, 0, 0⟩], []⟩ true (fun _ => true)
        (fun _ => true)).2.cache rankCacheKey =
        cacheLookup (SysState.mk [⟨"BTC", 1, 0, 0⟩] []).cache rankCacheKey ∧
     (PrimeCache ⟨[⟨"BTC", 1, 0, 0⟩], []⟩ true (fun _ => true)
        (fun _ => true)).1 =
       .ok (((List.range' 0
          (sortByPriceDesc (SysState.mk [⟨"BTC", 1, 0, 0⟩] []).db).length).filter
          (fun j => (fun _ => true) j && (fun _ => true) j)).length) ∧
     PrimeCache ⟨[⟨"BTC", 1, 0, 0⟩], []⟩ false (fun _ => true) (fun _ => true) =
       (.error (), ⟨[⟨"BTC", 1, 0, 0⟩], []⟩)) :=
  ⟨by decide,
   primeCache_item_keys_count_error ⟨[⟨"BTC", 1, 0, 0⟩], []⟩
     (fun _ => true) (fun _ => true) rankCacheKey (by decide)⟩

example :
    rankedQuery [⟨"BNB", 450, 0, 0⟩, ⟨"BTC", 65000, 0, 0⟩, ⟨"ETH", 3500, 0, 0⟩] =
      [⟨"BTC", 65000, some 1, 0, 0⟩, ⟨"ETH", 3500, some 2, 0, 0⟩,
       ⟨"BNB", 450, some 3, 0, 0⟩] := by decide

example :
    GetBitcoin ⟨[⟨"BTC", 7, 0, 0⟩], []⟩ "BTC" true true =
      (.ok (some ⟨"BTC", 7, none, 0, 0⟩),
       ⟨[⟨"BTC", 7, 0, 0⟩], [("bitcoin:BTC", .recVal ⟨"BTC", 7, none, 0, 0⟩)]⟩) := by
  decide
